import Mathlib

/-!
Shallow embedding of the data-shaping logic of the PothuHole repository:
the leaderboard aggregator of `src/pages/LeaderboardPage.js` and the
filter/pagination query pipeline of the `ListPage` component of
`src/pages/MapPage.js`.

JavaScript numbers that can become `NaN` (a danger sum that has absorbed an
`undefined` field) are modelled as `Option ℚ`, with `none` playing the role
of `NaN`/`undefined`; ordinary numeric values are exact rationals.
-/

namespace PothuHole

/-- A JavaScript numeric value: `none` models `NaN` (or `undefined` flowing
into arithmetic), `some q` an ordinary number. -/
abbrev JNum := Option ℚ

/-- JS addition: any `NaN`/`undefined` operand poisons the result
(`x + undefined` is `NaN`, `NaN + y` is `NaN`). -/
def jadd : JNum → JNum → JNum
  | some a, some b => some (a + b)
  | _, _ => none

/-- JS division by a (nonzero) ordinary number: `NaN / n` is `NaN`. -/
def jdiv : JNum → Nat → JNum
  | some a, n => some (a / (n : ℚ))
  | none, _ => none

/-- Sum of a list of JS numbers starting from `0`, as the JS
`reduce((s, x) => s + x, 0)` computes it. -/
def jsum (l : List JNum) : JNum := l.foldl jadd (some 0)

/-- The structured `location` value carried by every report
(see §3 of the data model and the `reverseGeocode` result shape). -/
structure Location where
  lat : ℚ
  lng : ℚ
  district : Option String
  formattedAddress : Option String
  deriving DecidableEq

/-- A pothole report as read back from the store.  `dangerLevel` is an
`Option` so that a malformed record (field absent) is representable;
a well-formed record always carries `some q`. -/
structure Report where
  id : String
  description : Option String
  location : Location
  dangerLevel : Option ℚ
  createdAt : Option Int
  imageUrl : Option String
  deriving DecidableEq

/-- `report.location.district || 'Unknown District'` — the grouping key of
`LeaderboardPage.js` line 127; the empty string and an absent field are both
falsy in JS and fall back to the sentinel. -/
def districtKey (r : Report) : String :=
  match r.location.district with
  | some d => if d = "" then "Unknown District" else d
  | none => "Unknown District"

/-- Per-district accumulator built by the `reduce` of
`LeaderboardPage.js` lines 125-136. -/
structure DistrictAcc where
  count : Nat
  totalDanger : JNum
  deriving DecidableEq

/-- One step of the `reduce`: bump (or create) the entry of district `d`.
JS objects keep string keys in insertion order, so the accumulator is an
association list and a fresh district is appended at the end. -/
def updateDistrict (acc : List (String × DistrictAcc)) (d : String) (dl : Option ℚ) :
    List (String × DistrictAcc) :=
  match acc with
  | [] => [(d, ⟨1, jadd (some 0) dl⟩)]
  | (k, v) :: rest =>
      if k = d then (k, ⟨v.count + 1, jadd v.totalDanger dl⟩) :: rest
      else (k, v) :: updateDistrict rest d dl

/-- `districtStats` of `LeaderboardPage.js` lines 125-136: group the reports
by district, accumulating `count` and `totalDanger`. -/
def districtStats (reports : List Report) : List (String × DistrictAcc) :=
  reports.foldl (fun acc r => updateDistrict acc (districtKey r) r.dangerLevel) []

/-- The district names of an accumulator, in order. -/
def statKeys (acc : List (String × DistrictAcc)) : List String := acc.map Prod.fst

/-- Total of the per-district report counters. -/
def sumCounts (acc : List (String × DistrictAcc)) : Nat :=
  (acc.map (fun p => p.2.count)).sum

/-- Number of reports of `l` that fall in district `d`. -/
def grpCount (d : String) (l : List Report) : Nat :=
  (l.filter (fun r => districtKey r = d)).length

/-- JS sum of the `dangerLevel`s of the reports of `l` that fall in district `d`. -/
def grpDanger (d : String) (l : List Report) : JNum :=
  jsum ((l.filter (fun r => districtKey r = d)).map Report.dangerLevel)

/-- First-match search in the accumulator, mirroring JS property access
`acc[district]`. -/
def findStat (d : String) : List (String × DistrictAcc) → Option DistrictAcc
  | [] => none
  | (k, v) :: rest => if k = d then some v else findStat d rest

/-! ### A stable sort

`Array.prototype.sort` is required by the language standard to be stable,
and a stable sort under a transitive, total comparator is uniquely
determined by the comparator and the input order.  We model it by stable
insertion: each element is inserted after every earlier element that the
comparator allows to precede it. -/

/-- Insert `x` after every element `y` with `le y x` (stability: earlier
elements win ties), before the first `y` with `¬ le y x`. -/
def insertR {α : Type} (le : α → α → Bool) (x : α) : List α → List α
  | [] => [x]
  | y :: ys => if le y x then y :: insertR le x ys else x :: y :: ys

/-- Stable insertion sort, folding the input from the left. -/
def insertionSortL {α : Type} (le : α → α → Bool) (l : List α) : List α :=
  l.foldl (fun acc x => insertR le x acc) []

/-! ### The leaderboard (`LeaderboardPage.js` lines 139-161) -/

/-- One leaderboard row (§3 `DistrictSummary`). -/
structure DistrictSummary where
  district : String
  count : Nat
  avgDanger : JNum
  deriving DecidableEq

/-- The comparator of `LeaderboardPage.js` lines 147-152, turned into a
"may precede" relation: `summaryLe a b` holds when the comparator value of
`(a, b)` is `≤ 0`.  On a `NaN` tie-break value the ES `SortCompare`
operation substitutes `+0`, i.e. treats the pair as equal. -/
def summaryLe (a b : DistrictSummary) : Bool :=
  if a.count = b.count then
    match b.avgDanger, a.avgDanger with
    | some vb, some va => decide (vb ≤ va)
    | _, _ => true
  else decide (b.count < a.count)

/-- The `map` of `LeaderboardPage.js` lines 139-144: one summary per
district, in first-appearance order. -/
def summaries (reports : List Report) : List DistrictSummary :=
  (districtStats reports).map fun p =>
    ⟨p.1, p.2.count, jdiv p.2.totalDanger p.2.count⟩

/-- `sortedLeaderboard` of `LeaderboardPage.js` lines 139-152: the summaries
sorted by count descending with average danger descending as tie-break. -/
def sortedLeaderboard (reports : List Report) : List DistrictSummary :=
  insertionSortL summaryLe (summaries reports)

/-- `totalDangerSum` of `LeaderboardPage.js` line 156. -/
def totalDangerSum (reports : List Report) : JNum :=
  reports.foldl (fun s r => jadd s r.dangerLevel) (some 0)

/-- The numeric value of JS `x.toFixed(1)`: the multiple of `1/10` nearest
to `x`, ties resolved to the larger value, exactly as `Number::toFixed`
specifies. -/
def toFixed1 (x : ℚ) : ℚ := ((⌊10 * x + 1 / 2⌋ : ℤ) : ℚ) / 10

/-- `avgDangerLevel` of `LeaderboardPage.js` line 157 (as a number; the
source renders it as a string). -/
def avgDangerLevel (reports : List Report) : JNum :=
  if 0 < reports.length then
    (jdiv (totalDangerSum reports) reports.length).map toFixed1
  else some 0

/-- The processed state set by the leaderboard effect:
`leaderboard` plus the `stats` object. -/
structure SummarizeResult where
  leaderboard : List DistrictSummary
  totalReports : Nat
  totalDistricts : Nat
  avgDangerLevel : JNum
  deriving DecidableEq

/-- The whole Aggregator (`fetchLeaderboard` data processing, lines 117-161):
an empty fetch returns early leaving the initial state. -/
def summarize (reports : List Report) : SummarizeResult :=
  if reports.length = 0 then ⟨[], 0, 0, some 0⟩
  else
    ⟨sortedLeaderboard reports, reports.length, (sortedLeaderboard reports).length,
      avgDangerLevel reports⟩

/-! ### The query pipeline (`MapPage.js`, `ListPage` component, lines 497-666) -/

/-- Leading-segment test on raw character lists: does the second list start
with the first? -/
def takesPref : List Char → List Char → Bool
  | [], _ => true
  | _ :: _, [] => false
  | a :: s, b :: h => a == b && takesPref s h

/-- JS `String.prototype.includes` on character lists: `hasSub sub hay` is
true when `sub` occurs contiguously inside `hay`. -/
def hasSub (sub : List Char) : List Char → Bool
  | [] => sub.isEmpty
  | b :: t => takesPref sub (b :: t) || hasSub sub t

/-- JS `toLowerCase`, character by character. -/
def lowerChars (s : String) : List Char := s.toList.map Char.toLower

/-- One disjunct of the search predicate (`MapPage.js` lines 604-606): a
falsy (absent or empty) field never matches; otherwise the lowercased field
must contain the already-lowercased term. -/
def fieldHit (f : Option String) (term : List Char) : Bool :=
  match f with
  | none => false
  | some s => !(s == "") && hasSub term (lowerChars s)

/-- The search filter body (`MapPage.js` lines 602-607): description,
district or formatted address may match. -/
def searchHit (term : List Char) (r : Report) : Bool :=
  fieldHit r.description term || fieldHit r.location.district term ||
    fieldHit r.location.formattedAddress term

/-- Step 1 of the filtering effect (`MapPage.js` lines 600-608): an empty
search term is falsy and skips the filter, otherwise the lowercased term is
matched against the three fields. -/
def applySearch (searchTerm : String) (l : List Report) : List Report :=
  if searchTerm = "" then l
  else l.filter (searchHit (lowerChars searchTerm))

/-- JS `String.prototype.split` with a single-character separator. -/
def splitOnChar (c : Char) : List Char → List (List Char)
  | [] => [[]]
  | a :: t =>
      match splitOnChar c t with
      | [] => [[]]
      | h :: rs => if a == c then [] :: h :: rs else (a :: h) :: rs

/-- Decimal accumulator for `jsNumber`. -/
def parseNatAux : List Char → Nat → Option Nat
  | [], acc => some acc
  | c :: t, acc => if c.isDigit then parseNatAux t (acc * 10 + (c.toNat - 48)) else none

/-- JS `Number()` restricted to the shapes the danger filter produces: a
nonempty decimal-digit string parses to that natural number; an absent
fragment (`undefined`, modelled by the empty list that `getD` defaults to)
or a non-digit character gives `NaN`. -/
def jsNumber : List Char → JNum
  | [] => none
  | l => (parseNatAux l 0).map fun n => (n : ℚ)

/-- JS relational `x >= m`: false whenever an operand is `NaN`/`undefined`. -/
def jgeB : JNum → JNum → Bool
  | some a, some b => decide (b ≤ a)
  | _, _ => false

/-- JS relational `x <= m`: false whenever an operand is `NaN`/`undefined`. -/
def jleB : JNum → JNum → Bool
  | some a, some b => decide (a ≤ b)
  | _, _ => false

/-- Step 2 of the filtering effect (`MapPage.js` lines 611-615): split the
filter value on `'-'` into a numeric min and max and keep the in-range
reports; the value `'all'` skips the filter. -/
def applyDangerFilter (dangerFilter : String) (l : List Report) : List Report :=
  if dangerFilter = "all" then l
  else
    let parts := splitOnChar '-' dangerFilter.toList
    let mn := jsNumber (parts.getD 0 [])
    let mx := jsNumber (parts.getD 1 [])
    l.filter fun r => jgeB r.dangerLevel mn && jleB r.dangerLevel mx

/-- The whole filtering effect (`MapPage.js` lines 596-621): search filter,
then danger filter, over the externally ordered reports. -/
def filteredReports (searchTerm dangerFilter : String) (l : List Report) : List Report :=
  applyDangerFilter dangerFilter (applySearch searchTerm l)

/-- `ITEMS_PER_PAGE` of `MapPage.js` line 497. -/
def ITEMS_PER_PAGE : Nat := 10

/-- `paginatedReports` of `MapPage.js` line 664.  For `page ≥ 1` (the only
values the page selector produces) this `drop`/`take` is exactly
`slice((page-1)*ITEMS_PER_PAGE, page*ITEMS_PER_PAGE)`. -/
def paginatedReports (l : List Report) (page : Nat) : List Report :=
  (l.drop ((page - 1) * ITEMS_PER_PAGE)).take ITEMS_PER_PAGE

/-- `count` of `MapPage.js` line 666:
`Math.ceil(filteredReports.length / ITEMS_PER_PAGE)`. -/
def count (l : List Report) : Nat := (l.length + ITEMS_PER_PAGE - 1) / ITEMS_PER_PAGE

/-! ### Concrete inputs used by scenarios and witnesses -/

/-- Report builder for concrete instances. -/
def mkReport (d : String) (dl : Option ℚ) (desc addr : Option String) : Report :=
  ⟨"", desc, ⟨0, 0, some d, addr⟩, dl, none, none⟩

/-- The §8 aggregator scenario input. -/
def scenarioReports : List Report :=
  [mkReport "Kochi" (some 8) none none, mkReport "Kochi" (some 4) none none,
    mkReport "Palakkad" (some 6) none none]

/-- A record whose `dangerLevel` field is missing. -/
def malformedReport : Report := mkReport "Kochi" none none none

/-- Eleven identical reports: pagination needs two pages. -/
def elevenReports : List Report := List.replicate 11 (mkReport "Kochi" (some 5) none none)

/-- A report with searchable text fields. -/
def searchReport : Report :=
  mkReport "Kochi" (some 5) (some "Deep pothole") (some "MG Road, Kochi")

/-! ### Supporting lemmas -/

theorem jadd_none_left (x : JNum) : jadd none x = none := by cases x <;> rfl

theorem jadd_zero_left (x : JNum) : jadd (some 0) x = x := by
  cases x <;> simp [jadd]

theorem jadd_zero_right (x : JNum) : jadd x (some 0) = x := by
  cases x <;> simp [jadd]

theorem jadd_assoc (x y z : JNum) : jadd (jadd x y) z = jadd x (jadd y z) := by
  cases x <;> cases y <;> cases z <;> simp [jadd, add_assoc]

theorem foldl_jadd (l : List JNum) (a : JNum) : l.foldl jadd a = jadd a (jsum l) := by
  induction l generalizing a with
  | nil => simp [jsum, jadd_zero_right]
  | cons x t ih =>
      show List.foldl jadd (jadd a x) t = jadd a (jsum (x :: t))
      rw [ih (jadd a x)]
      show jadd (jadd a x) (jsum t) = jadd a (List.foldl jadd (jadd (some 0) x) t)
      rw [ih (jadd (some 0) x), jadd_zero_left, jadd_assoc]

theorem jsum_cons (x : JNum) (t : List JNum) : jsum (x :: t) = jadd x (jsum t) := by
  show List.foldl jadd (jadd (some 0) x) t = jadd x (jsum t)
  rw [foldl_jadd, jadd_zero_left]

theorem jsum_eq_none_of_mem (l : List JNum) (h : none ∈ l) : jsum l = none := by
  induction l with
  | nil => cases h
  | cons x t ih =>
      rw [jsum_cons]
      rcases List.mem_cons.mp h with rfl | ht
      · exact jadd_none_left _
      · rw [ih ht]; cases x <;> rfl

theorem jsum_map_some (qs : List ℚ) : jsum (qs.map some) = some qs.sum := by
  induction qs with
  | nil => rfl
  | cons q t ih => rw [List.map_cons, jsum_cons, ih, List.sum_cons]; rfl

theorem statKeys_updateDistrict (acc : List (String × DistrictAcc)) (d : String)
    (dl : Option ℚ) :
    statKeys (updateDistrict acc d dl) =
      if d ∈ statKeys acc then statKeys acc else statKeys acc ++ [d] := by
  induction acc with
  | nil => simp [statKeys, updateDistrict]
  | cons p rest ih =>
      obtain ⟨k, v⟩ := p
      simp only [statKeys, List.map_cons, List.mem_cons] at ih ⊢
      by_cases hk : k = d
      · subst hk
        simp [updateDistrict]
      · have hdk : ¬ (d = k) := fun h => hk h.symm
        simp only [updateDistrict, if_neg hk, List.map_cons]
        by_cases hd : d ∈ List.map Prod.fst rest
        · rw [if_pos (Or.inr hd), ih, if_pos hd]
        · rw [if_neg (by rintro (h | h); exacts [hdk h, hd h]), ih, if_neg hd,
            List.cons_append]

theorem findStat_updateDistrict (acc : List (String × DistrictAcc)) (d d' : String)
    (dl : Option ℚ) :
    findStat d' (updateDistrict acc d dl) =
      if d = d' then
        match findStat d' acc with
        | some v => some ⟨v.count + 1, jadd v.totalDanger dl⟩
        | none => some ⟨1, jadd (some 0) dl⟩
      else findStat d' acc := by
  induction acc with
  | nil =>
      by_cases h : d = d'
      · subst h; simp [updateDistrict, findStat]
      · simp [updateDistrict, findStat, h]
  | cons p rest ih =>
      obtain ⟨k, v⟩ := p
      by_cases hk : k = d
      · subst hk
        by_cases h' : k = d'
        · subst h'
          simp [updateDistrict, findStat]
        · simp [updateDistrict, findStat, h']
      · simp only [updateDistrict, if_neg hk]
        by_cases h' : k = d'
        · subst h'
          have hd : ¬ (d = k) := fun h => hk h.symm
          simp [findStat, if_neg hd]
        · simp only [findStat, if_neg h']
          exact ih

theorem sumCounts_updateDistrict (acc : List (String × DistrictAcc)) (d : String)
    (dl : Option ℚ) :
    sumCounts (updateDistrict acc d dl) = sumCounts acc + 1 := by
  induction acc with
  | nil => simp [sumCounts, updateDistrict]
  | cons p rest ih =>
      obtain ⟨k, v⟩ := p
      by_cases hk : k = d
      · subst hk; simp [sumCounts, updateDistrict]; omega
      · simp only [sumCounts, List.map_cons, List.sum_cons] at ih ⊢
        simp only [updateDistrict, if_neg hk, List.map_cons, List.sum_cons]
        omega

/-- Accumulated grouping: running the `reduce` body over `l` starting from
`acc` extends the entry of each district by that district's members in `l`. -/
theorem findStat_districtStats_aux (l : List Report) (acc : List (String × DistrictAcc))
    (d : String) :
    findStat d (l.foldl (fun a r => updateDistrict a (districtKey r) r.dangerLevel) acc) =
      match findStat d acc with
      | some v => some ⟨v.count + grpCount d l, jadd v.totalDanger (grpDanger d l)⟩
      | none =>
          if grpCount d l = 0 then none else some ⟨grpCount d l, grpDanger d l⟩ := by
  induction l generalizing acc with
  | nil =>
      simp only [List.foldl_nil, grpCount, grpDanger, List.filter_nil, List.length_nil,
        List.map_nil]
      cases h : findStat d acc with
      | none => simp [jsum]
      | some v =>
          simp only [jsum, List.foldl_nil, jadd_zero_right, Nat.add_zero]
  | cons r t ih =>
      simp only [List.foldl_cons]
      rw [ih (updateDistrict acc (districtKey r) r.dangerLevel)]
      rw [findStat_updateDistrict]
      by_cases hd : districtKey r = d
      · rw [if_pos hd]
        have hcount : grpCount d (r :: t) = grpCount d t + 1 := by
          simp [grpCount, List.filter_cons, hd]
        have hdanger : grpDanger d (r :: t) = jadd r.dangerLevel (grpDanger d t) := by
          simp [grpDanger, List.filter_cons, hd, jsum_cons]
        cases h : findStat d acc with
        | some v =>
            simp only [hcount, hdanger]
            rw [show (v.count + 1 + grpCount d t = v.count + (grpCount d t + 1)) from by omega]
            rw [jadd_assoc]
        | none =>
            simp only [hcount, hdanger]
            rw [if_neg (by omega)]
            rw [show (1 + grpCount d t = grpCount d t + 1) from by omega]
            rw [jadd_assoc, jadd_zero_left]
      · rw [if_neg hd]
        have hcount : grpCount d (r :: t) = grpCount d t := by
          simp [grpCount, List.filter_cons, hd]
        have hdanger : grpDanger d (r :: t) = grpDanger d t := by
          simp [grpDanger, List.filter_cons, hd]
        rw [hcount, hdanger]

/-- Entry of district `d` in `districtStats`: present exactly when `d` has a
member, with the member count and the JS danger sum of the group. -/
theorem findStat_districtStats (l : List Report) (d : String) :
    findStat d (districtStats l) =
      if grpCount d l = 0 then none else some ⟨grpCount d l, grpDanger d l⟩ := by
  rw [districtStats, findStat_districtStats_aux l [] d]
  rfl

theorem sumCounts_districtStats (l : List Report) : sumCounts (districtStats l) = l.length := by
  rw [districtStats]
  have : ∀ (t : List Report) (acc : List (String × DistrictAcc)),
      sumCounts (t.foldl (fun a r => updateDistrict a (districtKey r) r.dangerLevel) acc) =
        sumCounts acc + t.length := by
    intro t
    induction t with
    | nil => simp
    | cons r u ih =>
        intro acc
        simp only [List.foldl_cons, List.length_cons]
        rw [ih, sumCounts_updateDistrict]
        omega
  rw [this]
  simp [sumCounts]

theorem statKeys_districtStats_nodup (l : List Report) : (statKeys (districtStats l)).Nodup := by
  rw [districtStats]
  have : ∀ (t : List Report) (acc : List (String × DistrictAcc)),
      (statKeys acc).Nodup →
      (statKeys (t.foldl (fun a r => updateDistrict a (districtKey r) r.dangerLevel) acc)).Nodup := by
    intro t
    induction t with
    | nil => intro acc h; simpa using h
    | cons r u ih =>
        intro acc h
        simp only [List.foldl_cons]
        apply ih
        rw [statKeys_updateDistrict]
        by_cases hmem : districtKey r ∈ statKeys acc
        · rwa [if_pos hmem]
        · rw [if_neg hmem]
          simpa [List.nodup_append] using ⟨h, hmem⟩
  exact this l [] (by simp [statKeys])

/-- In an accumulator with distinct keys, membership and `findStat` agree. -/
theorem mem_iff_findStat (acc : List (String × DistrictAcc)) (hnd : (statKeys acc).Nodup)
    (d : String) (v : DistrictAcc) :
    (d, v) ∈ acc ↔ findStat d acc = some v := by
  induction acc with
  | nil => simp [findStat]
  | cons p rest ih =>
      obtain ⟨k, w⟩ := p
      simp only [statKeys, List.map_cons, List.nodup_cons] at hnd
      by_cases hk : k = d
      · subst hk
        rw [show findStat k ((k, w) :: rest) = some w from by simp [findStat]]
        simp only [List.mem_cons, Option.some_inj]
        constructor
        · intro h
          rcases h with h | h
          · injection h with _ h2
            exact h2.symm
          · exact absurd (List.mem_map_of_mem Prod.fst h) hnd.1
        · rintro rfl; exact Or.inl rfl
      · rw [show findStat d ((k, w) :: rest) = findStat d rest from by simp [findStat, hk]]
        rw [← ih hnd.2]
        simp only [List.mem_cons]
        constructor
        · intro h
          rcases h with h | h
          · injection h with h1 _
            exact absurd h1.symm hk
          · exact h
        · exact Or.inr

/-- The districts present in the stats are exactly the district keys of the
input reports. -/
theorem mem_statKeys_districtStats (l : List Report) (d : String) :
    d ∈ statKeys (districtStats l) ↔ ∃ r ∈ l, districtKey r = d := by
  have hfind : ∀ acc : List (String × DistrictAcc),
      d ∈ statKeys acc ↔ ∃ v, findStat d acc = some v := by
    intro acc
    induction acc with
    | nil => simp [statKeys, findStat]
    | cons p rest ih =>
        obtain ⟨k, w⟩ := p
        by_cases hk : k = d
        · subst hk
          simp [statKeys, findStat]
        · have : ¬ (d = k) := fun h => hk h.symm
          simp only [statKeys, List.map_cons, List.mem_cons, findStat, if_neg hk]
          simp only [this, false_or]
          exact ih

  rw [hfind]
  constructor
  · rintro ⟨v, hv⟩
    rw [findStat_districtStats] at hv
    by_cases h0 : grpCount d l = 0
    · rw [if_pos h0] at hv; cases hv
    · have : (l.filter (fun r => districtKey r = d)) ≠ [] := by
        intro hnil
        exact h0 (by simp [grpCount, hnil])
      obtain ⟨r, hr⟩ := List.exists_mem_of_ne_nil _ this
      have := List.mem_filter.mp hr
      exact ⟨r, this.1, by simpa using this.2⟩
  · rintro ⟨r, hrl, hrd⟩
    rw [findStat_districtStats]
    have hpos : grpCount d l ≠ 0 := by
      have : r ∈ l.filter (fun r => districtKey r = d) :=
        List.mem_filter.mpr ⟨hrl, by simp [hrd]⟩
      simp only [grpCount]
      intro h0
      rw [List.length_eq_zero] at h0
      rw [h0] at this
      cases this
    rw [if_neg hpos]
    exact ⟨_, rfl⟩

theorem insertR_perm {α : Type} (le : α → α → Bool) (x : α) (l : List α) :
    (insertR le x l).Perm (x :: l) := by
  induction l with
  | nil => exact List.Perm.refl _
  | cons y ys ih =>
      by_cases h : le y x
      · rw [insertR, if_pos h]
        exact (ih.cons y).trans (List.Perm.swap x y ys)
      · rw [insertR, if_neg h]

theorem insertionSortL_perm {α : Type} (le : α → α → Bool) (l : List α) :
    (insertionSortL le l).Perm l := by
  have : ∀ (t : List α) (acc : List α),
      (t.foldl (fun acc x => insertR le x acc) acc).Perm (acc ++ t) := by
    intro t
    induction t with
    | nil => intro acc; simp
    | cons x u ih =>
        intro acc
        simp only [List.foldl_cons]
        refine (ih (insertR le x acc)).trans ?_
        refine (List.Perm.append_right u (insertR_perm le x acc)).trans ?_
        simpa using List.perm_middle.symm
  simpa using this l []

theorem mem_insertR {α : Type} (le : α → α → Bool) (x : α) (l : List α) (z : α) :
    z ∈ insertR le x l ↔ z = x ∨ z ∈ l := by
  rw [(insertR_perm le x l).mem_iff, List.mem_cons]

theorem pairwise_insertR {α : Type} (le : α → α → Bool) (p : α → Prop)
    (htrans : ∀ a b c, p a → p b → p c → le a b = true → le b c = true → le a c = true)
    (htot : ∀ a b, p a → p b → le a b = true ∨ le b a = true)
    (x : α) (l : List α) (hx : p x) (hl : ∀ y ∈ l, p y)
    (hsorted : l.Pairwise (fun a b => le a b = true)) :
    (insertR le x l).Pairwise (fun a b => le a b = true) := by
  induction l with
  | nil => simp [insertR]
  | cons y ys ih =>
      have hy : p y := hl y (List.mem_cons_self y ys)
      have hys : ∀ z ∈ ys, p z := fun z hz => hl z (List.mem_cons_of_mem y hz)
      rw [List.pairwise_cons] at hsorted
      by_cases h : le y x
      · rw [insertR, if_pos h]
        rw [List.pairwise_cons]
        constructor
        · intro z hz
          rcases (mem_insertR le x ys z).mp hz with rfl | hz'
          · exact h
          · exact hsorted.1 z hz'
        · exact ih hys hsorted.2
      · rw [insertR, if_neg h]
        rw [List.pairwise_cons]
        constructor
        · intro z hz
          rcases List.mem_cons.mp hz with rfl | hz'
          · rcases htot x z hx hy with hxy | hyx
            · exact hxy
            · exact absurd hyx (by simpa using h)
          · have hxy : le x y = true := by
              rcases htot x y hx hy with hxy | hyx
              · exact hxy
              · exact absurd hyx (by simpa using h)
            exact htrans x y z hx hy (hys z hz') hxy (hsorted.1 z hz')
        · exact List.pairwise_cons.mpr hsorted

theorem pairwise_insertionSortL {α : Type} (le : α → α → Bool) (p : α → Prop)
    (htrans : ∀ a b c, p a → p b → p c → le a b = true → le b c = true → le a c = true)
    (htot : ∀ a b, p a → p b → le a b = true ∨ le b a = true)
    (l : List α) (hl : ∀ y ∈ l, p y) :
    (insertionSortL le l).Pairwise (fun a b => le a b = true) := by
  have : ∀ (t : List α) (acc : List α), (∀ y ∈ t, p y) → (∀ y ∈ acc, p y) →
      acc.Pairwise (fun a b => le a b = true) →
      (t.foldl (fun acc x => insertR le x acc) acc).Pairwise (fun a b => le a b = true) := by
    intro t
    induction t with
    | nil => intro acc _ _ hs; simpa using hs
    | cons x u ih =>
        intro acc ht hacc hs
        simp only [List.foldl_cons]
        refine ih (insertR le x acc) (fun y hy => ht y (List.mem_cons_of_mem x hy)) ?_ ?_
        · intro y hy
          rcases (mem_insertR le x acc y).mp hy with rfl | hy'
          · exact ht _ (List.mem_cons_self _ u)
          · exact hacc y hy'
        · exact pairwise_insertR le p htrans htot x acc
            (ht x (List.mem_cons_self x u)) hacc hs
  exact this l [] hl (by simp) (by simp)

theorem totalDangerSum_eq_jsum (reports : List Report) :
    totalDangerSum reports = jsum (reports.map Report.dangerLevel) := by
  rw [totalDangerSum, jsum, List.foldl_map]

/-- Shape of every element of the pre-sort summary list. -/
theorem mem_summaries (reports : List Report) (s : DistrictSummary)
    (hs : s ∈ summaries reports) :
    s = ⟨s.district, grpCount s.district reports, jdiv (grpDanger s.district reports)
        (grpCount s.district reports)⟩ ∧ grpCount s.district reports ≠ 0 := by
  simp only [summaries] at hs
  obtain ⟨⟨d, v⟩, hmem, rfl⟩ := List.mem_map.mp hs
  have : findStat d (districtStats reports) = some v :=
    (mem_iff_findStat _ (statKeys_districtStats_nodup reports) d v).mp hmem
  rw [findStat_districtStats] at this
  by_cases h0 : grpCount d reports = 0
  · rw [if_pos h0] at this; cases this
  · rw [if_neg h0] at this
    injection this with hv
    rw [← hv]
    exact ⟨rfl, h0⟩

theorem jsum_isSome (l : List JNum) (h : ∀ x ∈ l, x ≠ none) : ∃ q, jsum l = some q := by
  induction l with
  | nil => exact ⟨0, rfl⟩
  | cons x t ih =>
      obtain ⟨q, hq⟩ := ih fun x hx => h x (List.mem_cons_of_mem _ hx)
      cases hx : x with
      | none => exact absurd hx (h x (List.mem_cons_self x t))
      | some a =>
          refine ⟨a + q, ?_⟩
          rw [jsum_cons, hq]
          rfl

theorem grpDanger_isSome (d : String) (l : List Report)
    (h : ∀ r ∈ l, r.dangerLevel ≠ none) : ∃ q, grpDanger d l = some q := by
  apply jsum_isSome
  intro x hx
  obtain ⟨r, hr, rfl⟩ := List.mem_map.mp hx
  exact h r (List.mem_of_mem_filter hr)

/-- The district column of the pre-sort summary list is the key column of
the grouped stats. -/
theorem summaries_district_map (reports : List Report) :
    (summaries reports).map DistrictSummary.district = statKeys (districtStats reports) := by
  rw [summaries, List.map_map]
  rfl

/-- A summary with a real (non-`NaN`) average. -/
def goodSummary (s : DistrictSummary) : Prop := ∃ q, s.avgDanger = some q

theorem summaryLe_eq_of_count_eq (a b : DistrictSummary) (h : a.count = b.count)
    (qa qb : ℚ) (hqa : a.avgDanger = some qa) (hqb : b.avgDanger = some qb) :
    summaryLe a b = decide (qb ≤ qa) := by
  simp only [summaryLe, if_pos h, hqa, hqb]

theorem summaryLe_eq_of_count_ne (a b : DistrictSummary) (h : ¬ a.count = b.count) :
    summaryLe a b = decide (b.count < a.count) := by
  simp only [summaryLe, if_neg h]

theorem summaryLe_trans (a b c : DistrictSummary) (ha : goodSummary a) (hb : goodSummary b)
    (hc : goodSummary c) (hab : summaryLe a b = true) (hbc : summaryLe b c = true) :
    summaryLe a c = true := by
  obtain ⟨qa, hqa⟩ := ha
  obtain ⟨qb, hqb⟩ := hb
  obtain ⟨qc, hqc⟩ := hc
  by_cases h1 : a.count = b.count
  · by_cases h2 : b.count = c.count
    · rw [summaryLe_eq_of_count_eq a b h1 qa qb hqa hqb, decide_eq_true_eq] at hab
      rw [summaryLe_eq_of_count_eq b c h2 qb qc hqb hqc, decide_eq_true_eq] at hbc
      rw [summaryLe_eq_of_count_eq a c (h1.trans h2) qa qc hqa hqc, decide_eq_true_eq]
      exact le_trans hbc hab
    · rw [summaryLe_eq_of_count_ne b c h2, decide_eq_true_eq] at hbc
      have hac : ¬ a.count = c.count := by omega
      rw [summaryLe_eq_of_count_ne a c hac, decide_eq_true_eq]
      omega
  · rw [summaryLe_eq_of_count_ne a b h1, decide_eq_true_eq] at hab
    by_cases h2 : b.count = c.count
    · have hac : ¬ a.count = c.count := by omega
      rw [summaryLe_eq_of_count_ne a c hac, decide_eq_true_eq]
      omega
    · rw [summaryLe_eq_of_count_ne b c h2, decide_eq_true_eq] at hbc
      have hac : ¬ a.count = c.count := by omega
      rw [summaryLe_eq_of_count_ne a c hac, decide_eq_true_eq]
      omega

theorem summaryLe_total (a b : DistrictSummary) (ha : goodSummary a) (hb : goodSummary b) :
    summaryLe a b = true ∨ summaryLe b a = true := by
  obtain ⟨qa, hqa⟩ := ha
  obtain ⟨qb, hqb⟩ := hb
  by_cases h1 : a.count = b.count
  · rw [summaryLe_eq_of_count_eq a b h1 qa qb hqa hqb,
      summaryLe_eq_of_count_eq b a h1.symm qb qa hqb hqa]
    simp only [decide_eq_true_eq]
    exact le_total qb qa
  · have h1' : ¬ b.count = a.count := fun h => h1 h.symm
    rw [summaryLe_eq_of_count_ne a b h1, summaryLe_eq_of_count_ne b a h1']
    simp only [decide_eq_true_eq]
    omega

theorem goodSummary_of_mem (reports : List Report)
    (hdl : ∀ r ∈ reports, r.dangerLevel ≠ none) (s : DistrictSummary)
    (hs : s ∈ summaries reports) :
    goodSummary s := by
  obtain ⟨hshape, -⟩ := mem_summaries reports s hs
  obtain ⟨q, hq⟩ := grpDanger_isSome s.district reports hdl
  refine ⟨q / (grpCount s.district reports : ℚ), ?_⟩
  have := congrArg DistrictSummary.avgDanger hshape
  simp only at this
  rw [this, hq]
  rfl

/-- Claim C1: the leaderboard partitions the input reports — districts are
pairwise distinct, each report's district key appears in exactly one row,
each row counts exactly the reports of its district (hence is non-empty),
and the row counts add up to the number of reports. -/
theorem aggregator_partitions (reports : List Report) :
    (((sortedLeaderboard reports).map DistrictSummary.district).Nodup)
  ∧ (∀ r ∈ reports,
      ((sortedLeaderboard reports).map DistrictSummary.district).count (districtKey r) = 1)
  ∧ (∀ s ∈ sortedLeaderboard reports,
      s.count = grpCount s.district reports ∧ 1 ≤ s.count)
  ∧ ((sortedLeaderboard reports).map DistrictSummary.count).sum = reports.length := by
  have hperm : (sortedLeaderboard reports).Perm (summaries reports) :=
    insertionSortL_perm summaryLe (summaries reports)
  have hpermd : ((sortedLeaderboard reports).map DistrictSummary.district).Perm
      (statKeys (districtStats reports)) := by
    rw [← summaries_district_map]
    exact hperm.map _
  have hnodup : ((sortedLeaderboard reports).map DistrictSummary.district).Nodup :=
    hpermd.nodup_iff.mpr (statKeys_districtStats_nodup reports)
  refine ⟨hnodup, ?_, ?_, ?_⟩
  · intro r hr
    have hmem : districtKey r ∈ (sortedLeaderboard reports).map DistrictSummary.district := by
      rw [hpermd.mem_iff]
      exact (mem_statKeys_districtStats reports _).mpr ⟨r, hr, rfl⟩
    exact List.count_eq_one_of_mem hnodup hmem
  · intro s hs
    obtain ⟨hshape, h0⟩ := mem_summaries reports s (hperm.mem_iff.mp hs)
    have hc := congrArg DistrictSummary.count hshape
    simp only at hc
    exact ⟨hc, by omega⟩
  · have h1 := (hperm.map DistrictSummary.count).sum_eq
    rw [h1, summaries, List.map_map]
    exact sumCounts_districtStats reports

/-- Witness for C1 at the §8 scenario input. -/
theorem aggregator_partitions_witness :
    ((sortedLeaderboard scenarioReports).map DistrictSummary.district).count
      (districtKey (mkReport "Kochi" (some 8) none none)) = 1 :=
  (aggregator_partitions scenarioReports).2.1 _ (by decide)

/-- Claim C2: in the leaderboard of any collection of (well-formed) reports,
for positions `i < j` either row `i` strictly outcounts row `j`, or the
counts tie and row `i`'s average danger is at least row `j`'s. -/
theorem leaderboard_sorted (reports : List Report)
    (hdl : ∀ r ∈ reports, r.dangerLevel ≠ none)
    (i j : Nat) (hij : i < j) (hj : j < (sortedLeaderboard reports).length) :
    ((sortedLeaderboard reports).get ⟨j, hj⟩).count
        < ((sortedLeaderboard reports).get ⟨i, Nat.lt_trans hij hj⟩).count
  ∨ (((sortedLeaderboard reports).get ⟨i, Nat.lt_trans hij hj⟩).count
        = ((sortedLeaderboard reports).get ⟨j, hj⟩).count
      ∧ ∃ x y : ℚ,
          ((sortedLeaderboard reports).get ⟨i, Nat.lt_trans hij hj⟩).avgDanger = some x
        ∧ ((sortedLeaderboard reports).get ⟨j, hj⟩).avgDanger = some y
        ∧ y ≤ x) := by
  have hgood := goodSummary_of_mem reports hdl
  have hperm : (sortedLeaderboard reports).Perm (summaries reports) :=
    insertionSortL_perm summaryLe (summaries reports)
  have hpw : (sortedLeaderboard reports).Pairwise (fun a b => summaryLe a b = true) :=
    pairwise_insertionSortL summaryLe goodSummary summaryLe_trans summaryLe_total _
      (fun y hy => hgood y hy)
  set a := (sortedLeaderboard reports).get ⟨i, Nat.lt_trans hij hj⟩ with hadef
  set b := (sortedLeaderboard reports).get ⟨j, hj⟩ with hbdef
  have hab : summaryLe a b = true := by
    rw [List.pairwise_iff_get] at hpw
    exact hpw ⟨i, Nat.lt_trans hij hj⟩ ⟨j, hj⟩ hij
  have hga : goodSummary a := by
    apply hgood
    rw [← hperm.mem_iff, hadef]
    exact List.get_mem _ _ _
  have hgb : goodSummary b := by
    apply hgood
    rw [← hperm.mem_iff, hbdef]
    exact List.get_mem _ _ _
  obtain ⟨qa, hqa⟩ := hga
  obtain ⟨qb, hqb⟩ := hgb
  by_cases h1 : a.count = b.count
  · right
    refine ⟨h1, qa, qb, hqa, hqb, ?_⟩
    simp only [summaryLe, if_pos h1, hqa, hqb, decide_eq_true_eq] at hab
    exact hab
  · left
    simp only [summaryLe, if_neg h1, decide_eq_true_eq] at hab
    exact hab

/-- Witness for C2 at the §8 scenario input, positions 0 and 1. -/
theorem leaderboard_sorted_witness :
    ((sortedLeaderboard scenarioReports).get ⟨1, by decide⟩).count
        < ((sortedLeaderboard scenarioReports).get ⟨0, by decide⟩).count
  ∨ (((sortedLeaderboard scenarioReports).get ⟨0, by decide⟩).count
        = ((sortedLeaderboard scenarioReports).get ⟨1, by decide⟩).count
      ∧ ∃ x y : ℚ,
          ((sortedLeaderboard scenarioReports).get ⟨0, by decide⟩).avgDanger = some x
        ∧ ((sortedLeaderboard scenarioReports).get ⟨1, by decide⟩).avgDanger = some y
        ∧ y ≤ x) :=
  leaderboard_sorted scenarioReports (by decide) 0 1 (by decide) (by decide)

/-- Counterexample to Claim C3 as stated: on a single report with no
`dangerLevel`, the code's `+= undefined` makes the district's danger total
and the global danger sum `NaN` (modelled `none`) — not `0`. -/
theorem missing_danger_not_zero_counterexample :
    totalDangerSum [malformedReport] = none
  ∧ ¬ totalDangerSum [malformedReport] = some 0
  ∧ districtStats [malformedReport] = [("Kochi", ⟨1, none⟩)] := by
  decide

/-- Claim C3 (amended): the Aggregator still does not fail on a record with
a missing `dangerLevel`, and the record is still counted in its group's
`count` and in `totalReports`; but instead of contributing `0`, the missing
field poisons the global danger sum and its district's average danger to
`NaN`. -/
theorem missing_danger_poisons_sums (reports : List Report)
    (h : ∃ r ∈ reports, r.dangerLevel = none) :
    totalDangerSum reports = none
  ∧ ((sortedLeaderboard reports).map DistrictSummary.count).sum = reports.length
  ∧ ∀ r ∈ reports, r.dangerLevel = none →
      ∃ s ∈ sortedLeaderboard reports, s.district = districtKey r ∧ s.avgDanger = none := by
  have hperm : (sortedLeaderboard reports).Perm (summaries reports) :=
    insertionSortL_perm summaryLe (summaries reports)
  obtain ⟨r0, hr0, hdl0⟩ := h
  refine ⟨?_, ?_, ?_⟩
  · rw [totalDangerSum_eq_jsum]
    apply jsum_eq_none_of_mem
    rw [List.mem_map]
    exact ⟨r0, hr0, hdl0⟩
  · have h1 := (hperm.map DistrictSummary.count).sum_eq
    rw [h1, summaries, List.map_map]
    exact sumCounts_districtStats reports
  · intro r hr hdl
    have hrf : r ∈ reports.filter (fun x => districtKey x = districtKey r) :=
      List.mem_filter.mpr ⟨hr, by simp⟩
    have hcount : grpCount (districtKey r) reports ≠ 0 := by
      have := List.length_pos.mpr (List.ne_nil_of_mem hrf)
      simp only [grpCount]
      omega
    have hmem : (districtKey r,
        (⟨grpCount (districtKey r) reports, grpDanger (districtKey r) reports⟩ : DistrictAcc))
        ∈ districtStats reports := by
      apply (mem_iff_findStat _ (statKeys_districtStats_nodup reports) _ _).mpr
      rw [findStat_districtStats, if_neg hcount]
    have hdang : grpDanger (districtKey r) reports = none := by
      apply jsum_eq_none_of_mem
      rw [List.mem_map]
      exact ⟨r, hrf, hdl⟩
    refine ⟨⟨districtKey r, grpCount (districtKey r) reports,
      jdiv (grpDanger (districtKey r) reports) (grpCount (districtKey r) reports)⟩,
      ?_, rfl, ?_⟩
    · rw [hperm.mem_iff, summaries]
      exact List.mem_map.mpr ⟨_, hmem, rfl⟩
    · rw [hdang]
      rfl

/-- Witness for the amended C3 at the single malformed record. -/
theorem missing_danger_poisons_sums_witness :
    totalDangerSum [malformedReport] = none
  ∧ ((sortedLeaderboard [malformedReport]).map DistrictSummary.count).sum = 1
  ∧ ∀ r ∈ [malformedReport], r.dangerLevel = none →
      ∃ s ∈ sortedLeaderboard [malformedReport],
        s.district = districtKey r ∧ s.avgDanger = none :=
  missing_danger_poisons_sums [malformedReport] (by decide)

/-- Claim C6: for non-empty input the global average danger is the sum of
the danger levels divided by the number of reports, rounded to one decimal
place, and `totalDistricts` counts the distinct district keys; the §8
scenario evaluates to exactly the predicted aggregate. -/
theorem aggregator_global_stats :
    (∀ (reports : List Report) (qs : List ℚ),
        reports ≠ [] →
        reports.map Report.dangerLevel = qs.map some →
        (summarize reports).avgDangerLevel
            = some (toFixed1 (qs.sum / (reports.length : ℚ)))
          ∧ (summarize reports).totalDistricts = ((reports.map districtKey).dedup).length)
  ∧ summarize scenarioReports =
      ⟨[⟨"Kochi", 2, some 6⟩, ⟨"Palakkad", 1, some 6⟩], 3, 2, some 6⟩ := by
  constructor
  · intro reports qs hne hmap
    have hlen : ¬ reports.length = 0 := fun h0 => hne (List.length_eq_zero.mp h0)
    have hsum : summarize reports =
        ⟨sortedLeaderboard reports, reports.length, (sortedLeaderboard reports).length,
          avgDangerLevel reports⟩ := by
      rw [summarize, if_neg hlen]
    constructor
    · rw [hsum]
      show avgDangerLevel reports = some (toFixed1 (qs.sum / (reports.length : ℚ)))
      rw [avgDangerLevel, if_pos (Nat.pos_of_ne_zero hlen), totalDangerSum_eq_jsum, hmap,
        jsum_map_some]
      rfl
    · rw [hsum]
      show (sortedLeaderboard reports).length = ((reports.map districtKey).dedup).length
      have hp : (sortedLeaderboard reports).Perm (summaries reports) :=
        insertionSortL_perm summaryLe (summaries reports)
      have hl1 : (sortedLeaderboard reports).length = (statKeys (districtStats reports)).length := by
        rw [hp.length_eq, summaries, List.length_map, statKeys, List.length_map]
      have hsetperm : (statKeys (districtStats reports)).Perm ((reports.map districtKey).dedup) := by
        apply (List.perm_ext_iff_of_nodup (statKeys_districtStats_nodup reports)
          (List.nodup_dedup _)).mpr
        intro d
        rw [mem_statKeys_districtStats, List.mem_dedup, List.mem_map]
      rw [hl1, hsetperm.length_eq]
  · norm_num +decide [summarize, scenarioReports, sortedLeaderboard, summaries, districtStats,
      updateDistrict, districtKey, insertionSortL, insertR, summaryLe, jdiv, jadd,
      avgDangerLevel, totalDangerSum, toFixed1, mkReport, jsum]

/-- Witness for C6's universally quantified part at the §8 scenario. -/
theorem aggregator_global_stats_witness :
    (summarize scenarioReports).avgDangerLevel
        = some (toFixed1 (([8, 4, 6] : List ℚ).sum / (scenarioReports.length : ℚ)))
  ∧ (summarize scenarioReports).totalDistricts
        = ((scenarioReports.map districtKey).dedup).length :=
  aggregator_global_stats.1 scenarioReports [8, 4, 6] (by decide) (by decide)

theorem paginatedReports_length (l : List Report) (page : Nat) :
    (paginatedReports l page).length = min 10 (l.length - (page - 1) * 10) := by
  simp [paginatedReports, ITEMS_PER_PAGE, List.length_take, List.length_drop]

/-- Concatenating the pages `1 .. count l` restores the list. -/
theorem pages_join_aux (n : Nat) : ∀ l : List Report, l.length ≤ n →
    ((List.range (count l)).map fun k => paginatedReports l (k + 1)).flatten = l := by
  induction n with
  | zero =>
      intro l hl
      have : l = [] := List.length_eq_zero.mp (Nat.le_zero.mp hl)
      subst this
      rfl
  | succ n ihn =>
      intro l hl
      by_cases h0 : l.length = 0
      · have : l = [] := List.length_eq_zero.mp h0
        subst this
        rfl
      · have hc : count l = count (l.drop 10) + 1 := by
          simp only [count, ITEMS_PER_PAGE, List.length_drop]
          omega
        have hfirst : paginatedReports l (0 + 1) = l.take 10 := by
          simp [paginatedReports, ITEMS_PER_PAGE]
        have hrest : ∀ k ∈ List.range (count (l.drop 10)),
            paginatedReports l (Nat.succ k + 1) = paginatedReports (l.drop 10) (k + 1) := by
          intro k hk
          simp only [paginatedReports, ITEMS_PER_PAGE, List.drop_drop]
          have harith : (Nat.succ k + 1 - 1) * 10 = 10 + (k + 1 - 1) * 10 := by omega
          rw [harith]
        rw [hc, List.range_succ_eq_map, List.map_cons, List.map_map]
        rw [List.flatten_cons]
        have hmapeq : (List.range (count (l.drop 10))).map
              ((fun k => paginatedReports l (k + 1)) ∘ Nat.succ)
            = (List.range (count (l.drop 10))).map fun k =>
                paginatedReports (l.drop 10) (k + 1) := by
          apply List.map_congr_left
          intro k hk
          exact hrest k hk
        rw [hmapeq, ihn (l.drop 10) (by simp only [List.length_drop]; omega), hfirst]
        exact List.take_append_drop 10 l

theorem pages_join (l : List Report) :
    ((List.range (count l)).map fun k => paginatedReports l (k + 1)).flatten = l :=
  pages_join_aux l.length l (Nat.le_refl _)

/-- Claim C4: with the fixed page size 10, `count` is the ceiling of
`filteredCount / 10` (in particular 0 pages for 0 results), page `page ≥ 1`
is the contiguous slice `[(page-1)*10, page*10)` of the list, and a page
beyond the last is empty rather than an error. -/
theorem pagination_page_spec (l : List Report) (page : Nat) (hp : 1 ≤ page) :
    ((count l : ℤ) = Int.ceil ((l.length : ℚ) / 10))
  ∧ paginatedReports l page = (l.drop ((page - 1) * 10)).take 10
  ∧ (∀ i : Nat, ∀ hi : i < (paginatedReports l page).length,
      ∃ hj : (page - 1) * 10 + i < l.length,
        (paginatedReports l page).get ⟨i, hi⟩ = l.get ⟨(page - 1) * 10 + i, hj⟩)
  ∧ (count l < page → paginatedReports l page = [])
  ∧ (l.length = 0 → count l = 0) := by
  have hc1 : l.length ≤ 10 * count l := by
    simp only [count, ITEMS_PER_PAGE]
    omega
  have hc2 : 10 * count l ≤ l.length + 9 := by
    simp only [count, ITEMS_PER_PAGE]
    omega
  refine ⟨?_, rfl, ?_, ?_, ?_⟩
  · rw [eq_comm, Int.ceil_eq_iff]
    constructor
    · rw [lt_div_iff₀ (by norm_num : (0 : ℚ) < 10)]
      have hc2' : ((10 * count l : Nat) : ℚ) ≤ ((l.length + 9 : Nat) : ℚ) :=
        Nat.cast_le.mpr hc2
      push_cast at hc2'
      push_cast
      linarith
    · rw [div_le_iff₀ (by norm_num : (0 : ℚ) < 10)]
      have hc1' : ((l.length : Nat) : ℚ) ≤ ((10 * count l : Nat) : ℚ) :=
        Nat.cast_le.mpr hc1
      push_cast at hc1'
      push_cast
      linarith
  · intro i hi
    have hlen := paginatedReports_length l page
    have hj : (page - 1) * 10 + i < l.length := by
      rw [hlen] at hi
      omega
    refine ⟨hj, ?_⟩
    simp only [paginatedReports, ITEMS_PER_PAGE, List.get_eq_getElem, List.getElem_take,
      List.getElem_drop]
  · intro hlt
    have hle : l.length ≤ (page - 1) * 10 := by omega
    have : paginatedReports l page = (l.drop ((page - 1) * 10)).take 10 := rfl
    rw [this, List.drop_eq_nil_of_le hle, List.take_nil]
  · intro h0
    simp only [count, ITEMS_PER_PAGE, h0]

/-- Witness for C4 at eleven reports, page 3 (beyond the 2 pages). -/
theorem pagination_page_spec_witness :
    ((count elevenReports : ℤ) = Int.ceil ((elevenReports.length : ℚ) / 10))
  ∧ paginatedReports elevenReports 3 = (elevenReports.drop ((3 - 1) * 10)).take 10
  ∧ (∀ i : Nat, ∀ hi : i < (paginatedReports elevenReports 3).length,
      ∃ hj : (3 - 1) * 10 + i < elevenReports.length,
        (paginatedReports elevenReports 3).get ⟨i, hi⟩
          = elevenReports.get ⟨(3 - 1) * 10 + i, hj⟩)
  ∧ (count elevenReports < 3 → paginatedReports elevenReports 3 = [])
  ∧ (elevenReports.length = 0 → count elevenReports = 0) :=
  pagination_page_spec elevenReports 3 (by decide)

/-- Claim C7: the pages `1 .. count l` partition the filtered list — their
lengths add up to the number of reports, and every page but possibly the
last holds exactly 10 items. -/
theorem pagination_partition (l : List Report) :
    (((List.range (count l)).map fun k => (paginatedReports l (k + 1)).length).sum = l.length)
  ∧ (∀ k : Nat, k + 1 < count l → (paginatedReports l (k + 1)).length = 10) := by
  constructor
  · have hj := congrArg List.length (pages_join l)
    rw [List.length_flatten, List.map_map] at hj
    exact hj
  · intro k hk
    rw [paginatedReports_length]
    simp only [count, ITEMS_PER_PAGE] at hk
    omega

/-- Witness for C7 at eleven reports (two pages: 10 + 1). -/
theorem pagination_partition_witness :
    (((List.range (count elevenReports)).map fun k =>
        (paginatedReports elevenReports (k + 1)).length).sum = 11)
  ∧ (paginatedReports elevenReports (0 + 1)).length = 10 :=
  ⟨(pagination_partition elevenReports).1,
    (pagination_partition elevenReports).2 0 (by decide)⟩

/-- Claim C8: with an empty search string and the unrestricted danger
filter the pipeline keeps the whole ordered input, and concatenating the
pages `1 .. totalPages` of the filtered list gives back exactly the input
sequence. -/
theorem empty_criteria_roundtrip (l : List Report) :
    filteredReports "" "all" l = l
  ∧ ((List.range (count (filteredReports "" "all" l))).map fun k =>
      paginatedReports (filteredReports "" "all" l) (k + 1)).flatten = l := by
  have hid : filteredReports "" "all" l = l := by
    rw [filteredReports, applySearch, if_pos rfl, applyDangerFilter, if_pos rfl]
  refine ⟨hid, ?_⟩
  rw [hid]
  exact pages_join l

/-- Claim C9: each stage of the pipeline — search filter, danger filter,
pagination — returns a sublist (order-preserving selection) of its input,
so the reports shown are a sublist of the ordered input. -/
theorem pipeline_preserves_order (l : List Report) (term df : String) (page : Nat) :
    (applySearch term l).Sublist l
  ∧ (applyDangerFilter df (applySearch term l)).Sublist (applySearch term l)
  ∧ (paginatedReports (filteredReports term df l) page).Sublist (filteredReports term df l)
  ∧ (paginatedReports (filteredReports term df l) page).Sublist l := by
  have h1 : (applySearch term l).Sublist l := by
    rw [applySearch]
    by_cases h : term = ""
    · rw [if_pos h]
    · rw [if_neg h]
      exact List.filter_sublist _
  have h2 : ∀ m : List Report, (applyDangerFilter df m).Sublist m := by
    intro m
    rw [applyDangerFilter]
    by_cases h : df = "all"
    · rw [if_pos h]
    · rw [if_neg h]
      exact List.filter_sublist _
  have h3 : ∀ m : List Report, (paginatedReports m page).Sublist m := by
    intro m
    exact (List.take_sublist _ _).trans (List.drop_sublist _ _)
  exact ⟨h1, h2 _, h3 _, (h3 _).trans ((h2 _).trans h1)⟩

theorem takesPref_iff (sub hay : List Char) :
    takesPref sub hay = true ↔ ∃ t, hay = sub ++ t := by
  induction sub generalizing hay with
  | nil => simp [takesPref]
  | cons a s ih =>
      cases hay with
      | nil => simp [takesPref]
      | cons b h =>
          simp only [takesPref, Bool.and_eq_true, beq_iff_eq]
          rw [ih]
          constructor
          · rintro ⟨rfl, t, rfl⟩
            exact ⟨t, rfl⟩
          · rintro ⟨t, ht⟩
            rw [List.cons_append] at ht
            injection ht with h1 h2
            exact ⟨h1.symm, t, h2⟩

theorem hasSub_iff (sub hay : List Char) :
    hasSub sub hay = true ↔ ∃ p q, hay = p ++ sub ++ q := by
  induction hay with
  | nil =>
      simp only [hasSub, List.isEmpty_iff]
      constructor
      · rintro rfl
        exact ⟨[], [], rfl⟩
      · rintro ⟨p, q, h⟩
        rcases List.append_eq_nil.mp (List.append_eq_nil.mp h.symm).1 with ⟨-, h2⟩
        exact h2
  | cons b t ih =>
      simp only [hasSub, Bool.or_eq_true]
      rw [takesPref_iff, ih]
      constructor
      · rintro (⟨u, hu⟩ | ⟨p, q, rfl⟩)
        · exact ⟨[], u, by simpa using hu⟩
        · exact ⟨b :: p, q, rfl⟩
      · rintro ⟨p, q, hpq⟩
        cases p with
        | nil =>
            left
            exact ⟨q, by simpa using hpq⟩
        | cons c p' =>
            right
            rw [List.cons_append, List.cons_append] at hpq
            injection hpq with h1 h2
            exact ⟨p', q, h2⟩

theorem lowerChars_ne_nil (s : String) (h : ¬ s = "") : ¬ lowerChars s = [] := by
  intro hnil
  apply h
  have hdata : s.data = [] := List.map_eq_nil_iff.mp hnil
  cases s with
  | mk data =>
      simp only at hdata
      rw [hdata]

theorem fieldHit_iff (f : Option String) (term : List Char) (hne : term ≠ []) :
    fieldHit f term = true ↔
      ∃ s, f = some s ∧ ∃ p q, lowerChars s = p ++ term ++ q := by
  cases f with
  | none => simp [fieldHit]
  | some s =>
      simp only [fieldHit, Bool.and_eq_true, Bool.not_eq_true', beq_eq_false_iff_ne, ne_eq]
      rw [hasSub_iff]
      constructor
      · rintro ⟨hs, p, q, hpq⟩
        exact ⟨s, rfl, p, q, hpq⟩
      · rintro ⟨s', hs', p, q, hpq⟩
        injection hs' with hss
        subst hss
        refine ⟨?_, p, q, hpq⟩
        intro h0
        subst h0
        rw [show lowerChars "" = [] from rfl] at hpq
        rcases List.append_eq_nil.mp (List.append_eq_nil.mp hpq.symm).1 with ⟨-, h2⟩
        exact hne h2

theorem searchHit_iff (term : List Char) (hne : term ≠ []) (r : Report) :
    searchHit term r = true ↔
      ∃ f ∈ [r.description, r.location.district, r.location.formattedAddress],
        ∃ s, f = some s ∧ ∃ p q, lowerChars s = p ++ term ++ q := by
  simp only [searchHit, Bool.or_eq_true, fieldHit_iff _ _ hne]
  constructor
  · rintro ((h | h) | h)
    · exact ⟨r.description, by simp, h⟩
    · exact ⟨r.location.district, by simp, h⟩
    · exact ⟨r.location.formattedAddress, by simp, h⟩
  · rintro ⟨f, hf, hmatch⟩
    simp only [List.mem_cons, List.not_mem_nil, or_false] at hf
    rcases hf with rfl | rfl | rfl
    · exact Or.inl (Or.inl hmatch)
    · exact Or.inl (Or.inr hmatch)
    · exact Or.inr hmatch

theorem mem_applySearch (term : String) (l : List Report) (r : Report) :
    r ∈ applySearch term l ↔ r ∈ l ∧ (term = "" ∨
      ∃ f ∈ [r.description, r.location.district, r.location.formattedAddress],
        ∃ s, f = some s ∧ ∃ p q, lowerChars s = p ++ lowerChars term ++ q) := by
  rw [applySearch]
  by_cases ht : term = ""
  · simp [ht]
  · rw [if_neg ht, List.mem_filter, searchHit_iff _ (lowerChars_ne_nil term ht) r]
    simp [ht]

theorem dangerPred_iff (x : JNum) (mn mx : ℚ) :
    (jgeB x (some mn) && jleB x (some mx)) = true ↔
      ∃ q, x = some q ∧ mn ≤ q ∧ q ≤ mx := by
  cases x with
  | none => simp [jgeB, jleB]
  | some a => simp [jgeB, jleB]

/-- Claim C5: the filtering stage keeps a report exactly when the search
term is empty or a case-insensitive substring of its description, district
or formatted address (any one match suffices), and the danger filter is
`'all'` or `min ≤ dangerLevel ≤ max` for the selected range. -/
theorem query_filter_mem_iff (l : List Report) (term df : String) (mn mx : ℚ)
    (hdf : df = "all" ∨ (df, mn, mx) ∈
      [("1-3", (1 : ℚ), (3 : ℚ)), ("4-7", 4, 7), ("8-10", 8, 10)])
    (r : Report) :
    r ∈ filteredReports term df l ↔
      r ∈ l
      ∧ (term = "" ∨
          ∃ f ∈ [r.description, r.location.district, r.location.formattedAddress],
            ∃ s, f = some s ∧ ∃ p q, lowerChars s = p ++ lowerChars term ++ q)
      ∧ (df = "all" ∨ ∃ dq : ℚ, r.dangerLevel = some dq ∧ mn ≤ dq ∧ dq ≤ mx) := by
  have hgen : ∀ (hne : ¬ df = "all"),
      applyDangerFilter df (applySearch term l)
        = (applySearch term l).filter
            (fun x => jgeB x.dangerLevel (some mn) && jleB x.dangerLevel (some mx)) →
      (r ∈ filteredReports term df l ↔
        r ∈ l
        ∧ (term = "" ∨
            ∃ f ∈ [r.description, r.location.district, r.location.formattedAddress],
              ∃ s, f = some s ∧ ∃ p q, lowerChars s = p ++ lowerChars term ++ q)
        ∧ (df = "all" ∨ ∃ dq : ℚ, r.dangerLevel = some dq ∧ mn ≤ dq ∧ dq ≤ mx)) := by
    intro hne heq
    rw [filteredReports, heq, List.mem_filter, mem_applySearch, dangerPred_iff, and_assoc]
    constructor
    · rintro ⟨hl, hsearch, hq⟩
      exact ⟨hl, hsearch, Or.inr hq⟩
    · rintro ⟨hl, hsearch, hdf' | hq⟩
      · exact absurd hdf' hne
      · exact ⟨hl, hsearch, hq⟩
  rcases hdf with rfl | hmem
  · rw [filteredReports,
      show applyDangerFilter "all" (applySearch term l) = applySearch term l from rfl,
      mem_applySearch]
    simp
  · simp only [List.mem_cons, List.not_mem_nil, or_false, Prod.mk.injEq] at hmem
    rcases hmem with ⟨rfl, rfl, rfl⟩ | ⟨rfl, rfl, rfl⟩ | ⟨rfl, rfl, rfl⟩
    · exact hgen (by decide) rfl
    · exact hgen (by decide) rfl
    · exact hgen (by decide) rfl

/-- Witness for C5: a moderate report with matching search text, searched
for "kochi" under the 4-7 range. -/
theorem query_filter_mem_iff_witness :
    searchReport ∈ filteredReports "kochi" "4-7" [searchReport] ↔
      searchReport ∈ [searchReport]
      ∧ ("kochi" = "" ∨
          ∃ f ∈ [searchReport.description, searchReport.location.district,
              searchReport.location.formattedAddress],
            ∃ s, f = some s ∧ ∃ p q, lowerChars s = p ++ lowerChars "kochi" ++ q)
      ∧ ("4-7" = "all" ∨
          ∃ dq : ℚ, searchReport.dangerLevel = some dq ∧ 4 ≤ dq ∧ dq ≤ 7) :=
  query_filter_mem_iff [searchReport] "kochi" "4-7" 4 7 (by decide) searchReport

theorem dangerPred_nat_iff (r : Report) (n : Nat) (hdl : r.dangerLevel = some (n : ℚ))
    (lo hi : ℚ) :
    (jgeB r.dangerLevel (some lo) && jleB r.dangerLevel (some hi)) = true ↔
      (lo ≤ (n : ℚ) ∧ (n : ℚ) ≤ hi) := by
  rw [dangerPred_iff]
  constructor
  · rintro ⟨q, hq, hge, hle⟩
    rw [hdl] at hq
    injection hq with hq'
    subst hq'
    exact ⟨hge, hle⟩
  · rintro ⟨hge, hle⟩
    exact ⟨(n : ℚ), hdl, hge, hle⟩

/-- Claim C10: the three selectable ranges 1-3, 4-7, 8-10 partition the
integer danger domain [1, 10] — a report with an integer danger level in
range is kept by exactly one of them — and over a collection of such
reports the union of the three filtered results is the `'all'` result. -/
theorem danger_ranges_partition :
    (∀ (r : Report) (n : Nat), 1 ≤ n → n ≤ 10 → r.dangerLevel = some (n : ℚ) →
        (applyDangerFilter "1-3" [r] = [r] ∧ applyDangerFilter "4-7" [r] = []
            ∧ applyDangerFilter "8-10" [r] = [])
      ∨ (applyDangerFilter "1-3" [r] = [] ∧ applyDangerFilter "4-7" [r] = [r]
            ∧ applyDangerFilter "8-10" [r] = [])
      ∨ (applyDangerFilter "1-3" [r] = [] ∧ applyDangerFilter "4-7" [r] = []
            ∧ applyDangerFilter "8-10" [r] = [r]))
  ∧ (∀ (l : List Report) (r : Report),
      (∀ x ∈ l, ∃ n : Nat, 1 ≤ n ∧ n ≤ 10 ∧ x.dangerLevel = some (n : ℚ)) →
      ((r ∈ applyDangerFilter "1-3" l ∨ r ∈ applyDangerFilter "4-7" l
          ∨ r ∈ applyDangerFilter "8-10" l) ↔ r ∈ applyDangerFilter "all" l)) := by
  have e13 : ∀ m : List Report, applyDangerFilter "1-3" m
      = m.filter fun x => jgeB x.dangerLevel (some 1) && jleB x.dangerLevel (some 3) :=
    fun m => rfl
  have e47 : ∀ m : List Report, applyDangerFilter "4-7" m
      = m.filter fun x => jgeB x.dangerLevel (some 4) && jleB x.dangerLevel (some 7) :=
    fun m => rfl
  have e810 : ∀ m : List Report, applyDangerFilter "8-10" m
      = m.filter fun x => jgeB x.dangerLevel (some 8) && jleB x.dangerLevel (some 10) :=
    fun m => rfl
  have cast_le : ∀ (m n : Nat), ((m : ℚ) ≤ (n : ℚ)) ↔ m ≤ n := fun m n => Nat.cast_le
  have qle : ∀ (m : Nat) (q : ℚ), ((m : Nat) : ℚ) = q →
      ∀ n : Nat, ((q ≤ (n : ℚ)) ↔ m ≤ n) ∧ (((n : ℚ) ≤ q) ↔ n ≤ m) := by
    rintro m q rfl n
    exact ⟨Nat.cast_le, Nat.cast_le⟩
  constructor
  · intro r n h1 h10 hdl
    have hin : ∀ lo hi : ℚ, ∀ lon hin : Nat, ((lon : Nat) : ℚ) = lo → ((hin : Nat) : ℚ) = hi →
        lon ≤ n → n ≤ hin →
        (jgeB r.dangerLevel (some lo) && jleB r.dangerLevel (some hi)) = true := by
      rintro lo hi lon hin rfl rfl hlo hhi
      exact (dangerPred_nat_iff r n hdl _ _).mpr ⟨Nat.cast_le.mpr hlo, Nat.cast_le.mpr hhi⟩
    have hout : ∀ lo hi : ℚ, ∀ lon hin : Nat, ((lon : Nat) : ℚ) = lo → ((hin : Nat) : ℚ) = hi →
        (n < lon ∨ hin < n) →
        (jgeB r.dangerLevel (some lo) && jleB r.dangerLevel (some hi)) = false := by
      rintro lo hi lon hin rfl rfl hrange
      rw [Bool.eq_false_iff]
      intro hc
      obtain ⟨hge, hle⟩ := (dangerPred_nat_iff r n hdl _ _).mp hc
      rw [Nat.cast_le] at hge hle
      omega
    rcases Nat.lt_or_ge n 4 with hn4 | hn4
    · left
      refine ⟨?_, ?_, ?_⟩
      · rw [e13, List.filter_singleton,
          hin 1 3 1 3 (by norm_num) (by norm_num) (by omega) (by omega)]
        rfl
      · rw [e47, List.filter_singleton,
          hout 4 7 4 7 (by norm_num) (by norm_num) (by omega)]
        rfl
      · rw [e810, List.filter_singleton,
          hout 8 10 8 10 (by norm_num) (by norm_num) (by omega)]
        rfl
    · rcases Nat.lt_or_ge n 8 with hn8 | hn8
      · right; left
        refine ⟨?_, ?_, ?_⟩
        · rw [e13, List.filter_singleton,
            hout 1 3 1 3 (by norm_num) (by norm_num) (by omega)]
          rfl
        · rw [e47, List.filter_singleton,
            hin 4 7 4 7 (by norm_num) (by norm_num) (by omega) (by omega)]
          rfl
        · rw [e810, List.filter_singleton,
            hout 8 10 8 10 (by norm_num) (by norm_num) (by omega)]
          rfl
      · right; right
        refine ⟨?_, ?_, ?_⟩
        · rw [e13, List.filter_singleton,
            hout 1 3 1 3 (by norm_num) (by norm_num) (by omega)]
          rfl
        · rw [e47, List.filter_singleton,
            hout 4 7 4 7 (by norm_num) (by norm_num) (by omega)]
          rfl
        · rw [e810, List.filter_singleton,
            hin 8 10 8 10 (by norm_num) (by norm_num) (by omega) (by omega)]
          rfl
  · intro l r hint
    rw [show applyDangerFilter "all" l = l from rfl]
    constructor
    · rintro (h | h | h)
      · rw [e13] at h
        exact List.mem_of_mem_filter h
      · rw [e47] at h
        exact List.mem_of_mem_filter h
      · rw [e810] at h
        exact List.mem_of_mem_filter h
    · intro hr
      obtain ⟨n, h1, h10, hdl⟩ := hint r hr
      have hin : ∀ lo hi : ℚ, ∀ lon hin : Nat, ((lon : Nat) : ℚ) = lo → ((hin : Nat) : ℚ) = hi →
          lon ≤ n → n ≤ hin →
          (jgeB r.dangerLevel (some lo) && jleB r.dangerLevel (some hi)) = true := by
        rintro lo hi lon hin rfl rfl hlo hhi
        exact (dangerPred_nat_iff r n hdl _ _).mpr ⟨Nat.cast_le.mpr hlo, Nat.cast_le.mpr hhi⟩
      rcases Nat.lt_or_ge n 4 with hn4 | hn4
      · left
        rw [e13]
        exact List.mem_filter.mpr ⟨hr,
          hin 1 3 1 3 (by norm_num) (by norm_num) (by omega) (by omega)⟩
      · rcases Nat.lt_or_ge n 8 with hn8 | hn8
        · right; left
          rw [e47]
          exact List.mem_filter.mpr ⟨hr,
            hin 4 7 4 7 (by norm_num) (by norm_num) (by omega) (by omega)⟩
        · right; right
          rw [e810]
          exact List.mem_filter.mpr ⟨hr,
            hin 8 10 8 10 (by norm_num) (by norm_num) (by omega) (by omega)⟩

/-- Witness for C10 at a danger-5 report (kept only by the 4-7 range). -/
theorem danger_ranges_partition_witness :
    ((applyDangerFilter "1-3" [mkReport "Kochi" (some 5) none none]
          = [mkReport "Kochi" (some 5) none none]
        ∧ applyDangerFilter "4-7" [mkReport "Kochi" (some 5) none none] = []
        ∧ applyDangerFilter "8-10" [mkReport "Kochi" (some 5) none none] = [])
      ∨ (applyDangerFilter "1-3" [mkReport "Kochi" (some 5) none none] = []
        ∧ applyDangerFilter "4-7" [mkReport "Kochi" (some 5) none none]
            = [mkReport "Kochi" (some 5) none none]
        ∧ applyDangerFilter "8-10" [mkReport "Kochi" (some 5) none none] = [])
      ∨ (applyDangerFilter "1-3" [mkReport "Kochi" (some 5) none none] = []
        ∧ applyDangerFilter "4-7" [mkReport "Kochi" (some 5) none none] = []
        ∧ applyDangerFilter "8-10" [mkReport "Kochi" (some 5) none none]
            = [mkReport "Kochi" (some 5) none none]))
  ∧ ((mkReport "Kochi" (some 5) none none
        ∈ applyDangerFilter "1-3" [mkReport "Kochi" (some 5) none none]
      ∨ mkReport "Kochi" (some 5) none none
        ∈ applyDangerFilter "4-7" [mkReport "Kochi" (some 5) none none]
      ∨ mkReport "Kochi" (some 5) none none
        ∈ applyDangerFilter "8-10" [mkReport "Kochi" (some 5) none none])
    ↔ mkReport "Kochi" (some 5) none none
        ∈ applyDangerFilter "all" [mkReport "Kochi" (some 5) none none]) :=
  ⟨danger_ranges_partition.1 (mkReport "Kochi" (some 5) none none) 5 (by decide) (by decide)
      (by decide),
    danger_ranges_partition.2 [mkReport "Kochi" (some 5) none none]
      (mkReport "Kochi" (some 5) none none)
      (fun x hx => by
        rw [List.mem_singleton] at hx
        subst hx
        exact ⟨5, by decide, by decide, by decide⟩)⟩

end PothuHole
